import Mathlib

/-!
Leaderboard service: sort key, cache-aside score resolution and rank queries.

A shallow embedding of `cache/redis.go`, `repository/repo.go` and
`service/service.go`.  Go's `int64` (and `int`, taken as 64-bit) values are
integers reduced into `[-2^63, 2^63)` after every arithmetic operation; the
`float64` conversion of the sort key is the exact round-to-nearest-even
rounding to a 53-bit significand, whose value is again an integer.
-/

namespace Leaderboard

/-! ## Machine integers -/

/-- Two's-complement reduction of an integer into the `int64` range. -/
def wrapInt64 (x : Int) : Int :=
  (x + 9223372036854775808) % 18446744073709551616 - 9223372036854775808

/-- Membership in the `int64` range. -/
def isInt64 (x : Int) : Prop :=
  -9223372036854775808 ≤ x ∧ x ≤ 9223372036854775807

instance (x : Int) : Decidable (isInt64 x) := by
  unfold isInt64; exact inferInstance

/-- Number of low bits a magnitude loses when it is cut down to a 53-bit
significand (`fuel` bounds the count; 11 is enough below `2^64`). -/
def droppedBits (a : Nat) : Nat → Nat
  | 0 => 0
  | fuel + 1 => if a < 9007199254740992 then 0 else droppedBits (a / 2) fuel + 1

/-- Value of Go's `float64(x)` for an `int64` `x`: round to nearest, ties to
even, with a 53-bit significand.  The result is always an integer. -/
def float64OfInt64 (x : Int) : Int :=
  let a := x.natAbs
  if a < 9007199254740992 then x
  else
    let sh := droppedBits a 11
    let q := a / 2 ^ sh
    let r := a % 2 ^ sh
    let half := 2 ^ (sh - 1)
    let q' := if half < r ∨ (r = half ∧ q % 2 = 1) then q + 1 else q
    Int.sign x * ((q' * 2 ^ sh : Nat) : Int)

/-! ## cache.UpdateScore: the sort key -/

/-- The constant `1000000000` of `cache.UpdateScore`. -/
def timeScale : Int := 1000000000

/-- The `int64` value `redisScore := -score*1000000000 - timestamp`. -/
def redisScore (score timestamp : Int) : Int :=
  wrapInt64 (wrapInt64 (wrapInt64 (-score) * timeScale) - timestamp)

/-- The ZSET score `float64(redisScore)` handed to `ZAdd`. -/
def sortKey (score timestamp : Int) : Int :=
  float64OfInt64 (redisScore score timestamp)

/-! ## Data model (`model/models.go`) -/

/-- A row of the `PlayerScore` table; `deleted` is "`DeletedAt` is set". -/
structure PlayerScore where
  playerID : String
  score : Int
  lastUpdateTime : Int
  deleted : Bool
  deriving DecidableEq, Repr

/-- A row of the `ScoreChangeLog` table. -/
structure ScoreChangeLog where
  playerID : String
  incrScore : Int
  timestamp : Int
  beforeScore : Int
  afterScore : Int
  deriving DecidableEq, Repr

/-- The `RankInfo` DTO. -/
structure RankInfo where
  playerID : String
  score : Int
  rank : Int
  deriving DecidableEq, Repr

/-- Errors seen by the service: `redis.Nil`, `gorm.ErrRecordNotFound`, any
other failure of a store, and an error built by `fmt.Errorf`. -/
inductive Error where
  | redisNil
  | recordNotFound
  | unavailable
  | wrapped (context : String) (cause : Error)
  deriving DecidableEq, Repr

deriving instance DecidableEq for Except

/-- One request sent to Redis or to the database. -/
inductive Op where
  | zadd (member : String) (score : Int)
  | hset (player : String) (score updateTime : Int)
  | hget (player : String)
  | zrank (member : String)
  | zrange (start stop : Int)
  | zrem (member : String)
  | del (player : String)
  | firstLive (player : String)
  | firstDeleted (player : String)
  | firstUnscoped (player : String)
  | createScore (row : PlayerScore)
  | updates (player : String) (score updateTime : Int)
  | createLog (log : ScoreChangeLog)
  | softDelete (player : String)
  deriving DecidableEq, Repr

/-- The stores: the sorted set `leaderboard:main` (ascending by score, then
member), the hashes `player:info:<id>`, the two tables, and the requests
issued so far. -/
structure World where
  zset : List (Int × String)
  info : List (String × Int × Int)
  rows : List PlayerScore
  logs : List ScoreChangeLog
  trace : List Op
  deriving DecidableEq, Repr

/-- All stores empty, nothing requested yet. -/
def World.empty : World := ⟨[], [], [], [], []⟩

/-- A failure pattern: whether the request with a given sequence number
(the count of requests issued before it) fails. -/
abbrev Faults := Nat → Bool

/-- The pattern in which no request fails. -/
def noFaults : Faults := fun _ => false

/-- Issue a request: record it and report whether it fails. -/
def issue (F : Faults) (op : Op) (w : World) : Bool × World :=
  (F w.trace.length, { w with trace := w.trace ++ [op] })

/-! ## Redis primitives -/

/-- Sorted-set order: by score, ties by member, members being compared
lexicographically character by character (for UTF-8 members this is the
byte-wise order Redis uses). -/
def zsetBefore (a b : Int × String) : Bool :=
  decide (a.1 < b.1) || (a.1 == b.1 && decide (a.2.data < b.2.data))

/-- Insertion into the sorted set at its place. -/
def zsetInsert (e : Int × String) : List (Int × String) → List (Int × String)
  | [] => [e]
  | x :: xs => if zsetBefore e x then e :: x :: xs else x :: zsetInsert e xs

/-- Removal of a member from the sorted set (ZREM). -/
def zsetRemove (m : String) (z : List (Int × String)) : List (Int × String) :=
  z.filter (fun e => e.2 != m)

/-- ZADD: set the member's score, moving it to its new place. -/
def zsetAdd (m : String) (score : Int) (z : List (Int × String)) : List (Int × String) :=
  zsetInsert (score, m) (zsetRemove m z)

/-- ZRANK: 0-based position of a member. -/
def zsetRank (m : String) : List (Int × String) → Option Nat
  | [] => none
  | e :: es => if e.2 == m then some 0 else (zsetRank m es).map (· + 1)

/-- ZRANGE start stop: negative indexes count from the end, the range is
inclusive and clamped to the set. -/
def zsetRange (start stop : Int) (z : List (Int × String)) : List String :=
  let llen : Int := z.length
  let start := if start < 0 then llen + start else start
  let stop := if stop < 0 then llen + stop else stop
  let start := if start < 0 then 0 else start
  if start > stop ∨ start ≥ llen then []
  else
    let stop := if stop ≥ llen then llen - 1 else stop
    ((z.map Prod.snd).drop start.toNat).take (stop - start + 1).toNat

/-- HGET of field `score` (stored by `SetPlayerInfo` as a decimal `int64`,
which `strconv.ParseInt` reads back unchanged). -/
def infoScore (p : String) (info : List (String × Int × Int)) : Option Int :=
  (info.find? (fun e => e.1 == p)).map (fun e => e.2.1)

/-- DEL of the player's hash. -/
def infoDel (p : String) (info : List (String × Int × Int)) : List (String × Int × Int) :=
  info.filter (fun e => e.1 != p)

/-- HSET of fields `score` and `update_time`. -/
def infoSet (p : String) (score ts : Int) (info : List (String × Int × Int)) :
    List (String × Int × Int) :=
  (p, score, ts) :: infoDel p info

/-- The members of the board, best rank first. -/
def members (w : World) : List String := w.zset.map Prod.snd

/-- Every member of the board has a ScoreFacts entry. -/
def allHaveScore (w : World) : Prop :=
  ∀ m ∈ members w, (infoScore m w.info).isSome = true

instance (w : World) : Decidable (allHaveScore w) := by
  unfold allHaveScore; exact inferInstance

/-! ## `cache/redis.go` -/

namespace RedisCache

/-- `RedisCache.UpdateScore`. -/
def UpdateScore (F : Faults) (playerID : String) (score timestamp : Int) (w : World) :
    Except Error Unit × World :=
  let key := sortKey score timestamp
  match issue F (Op.zadd playerID key) w with
  | (true, w1) => (.error .unavailable, w1)
  | (false, w1) => (.ok (), { w1 with zset := zsetAdd playerID key w1.zset })

/-- `RedisCache.SetPlayerInfo`. -/
def SetPlayerInfo (F : Faults) (playerID : String) (score timestamp : Int) (w : World) :
    Except Error Unit × World :=
  match issue F (Op.hset playerID score timestamp) w with
  | (true, w1) => (.error .unavailable, w1)
  | (false, w1) => (.ok (), { w1 with info := infoSet playerID score timestamp w1.info })

/-- `RedisCache.GetRank`. -/
def GetRank (F : Faults) (playerID : String) (w : World) : Except Error Int × World :=
  match issue F (Op.zrank playerID) w with
  | (true, w1) => (.error .unavailable, w1)
  | (false, w1) =>
    match zsetRank playerID w1.zset with
    | none => (.error .redisNil, w1)
    | some r => (.ok (r : Int), w1)

/-- `RedisCache.GetRangePlayers`. -/
def GetRangePlayers (F : Faults) (start stop : Int) (w : World) :
    Except Error (List String) × World :=
  match issue F (Op.zrange start stop) w with
  | (true, w1) => (.error .unavailable, w1)
  | (false, w1) => (.ok (zsetRange start stop w1.zset), w1)

/-- `RedisCache.GetTopN`. -/
def GetTopN (F : Faults) (n : Int) (w : World) : Except Error (List String) × World :=
  match issue F (Op.zrange 0 (wrapInt64 (n - 1))) w with
  | (true, w1) => (.error .unavailable, w1)
  | (false, w1) => (.ok (zsetRange 0 (wrapInt64 (n - 1)) w1.zset), w1)

/-- `RedisCache.GetPlayerScore`. -/
def GetPlayerScore (F : Faults) (playerID : String) (w : World) : Except Error Int × World :=
  match issue F (Op.hget playerID) w with
  | (true, w1) => (.error .unavailable, w1)
  | (false, w1) =>
    match infoScore playerID w1.info with
    | none => (.error .redisNil, w1)
    | some s => (.ok s, w1)

/-- `RedisCache.RemovePlayer`. -/
def RemovePlayer (F : Faults) (playerID : String) (w : World) : Except Error Unit × World :=
  match issue F (Op.zrem playerID) w with
  | (true, w1) => (.error .unavailable, w1)
  | (false, w1) =>
    let w2 := { w1 with zset := zsetRemove playerID w1.zset }
    match issue F (Op.del playerID) w2 with
    | (true, w3) => (.error .unavailable, w3)
    | (false, w3) => (.ok (), { w3 with info := infoDel playerID w3.info })

end RedisCache

/-! ## `repository/repo.go` -/

namespace playerRepository

/-- `playerRepository.GetPlayerScore`: the live row of the player. -/
def GetPlayerScore (F : Faults) (playerID : String) (w : World) :
    Except Error PlayerScore × World :=
  match issue F (Op.firstLive playerID) w with
  | (true, w1) => (.error .unavailable, w1)
  | (false, w1) =>
    match w1.rows.find? (fun r => r.playerID == playerID && !r.deleted) with
    | none => (.error .recordNotFound, w1)
    | some r => (.ok r, w1)

/-- `playerRepository.GetDeletedPlayerScore`: the soft-deleted row. -/
def GetDeletedPlayerScore (F : Faults) (playerID : String) (w : World) :
    Except Error PlayerScore × World :=
  match issue F (Op.firstDeleted playerID) w with
  | (true, w1) => (.error .unavailable, w1)
  | (false, w1) =>
    match w1.rows.find? (fun r => r.playerID == playerID && r.deleted) with
    | none => (.error .recordNotFound, w1)
    | some r => (.ok r, w1)

/-- `playerRepository.UpdatePlayerScore`: create the row, or update it and
clear its deletion mark. -/
def UpdatePlayerScore (F : Faults) (score : PlayerScore) (w : World) :
    Except Error Unit × World :=
  match issue F (Op.firstUnscoped score.playerID) w with
  | (true, w1) => (.error .unavailable, w1)
  | (false, w1) =>
    match w1.rows.find? (fun r => r.playerID == score.playerID) with
    | none =>
      match issue F (Op.createScore score) w1 with
      | (true, w2) => (.error .unavailable, w2)
      | (false, w2) => (.ok (), { w2 with rows := w2.rows ++ [score] })
    | some _ =>
      match issue F (Op.updates score.playerID score.score score.lastUpdateTime) w1 with
      | (true, w2) => (.error .unavailable, w2)
      | (false, w2) =>
        (.ok (), { w2 with rows := w2.rows.map (fun r =>
          if r.playerID == score.playerID then
            { r with score := score.score, lastUpdateTime := score.lastUpdateTime,
                     deleted := false }
          else r) })

/-- `playerRepository.CreateScoreLog`. -/
def CreateScoreLog (F : Faults) (log : ScoreChangeLog) (w : World) :
    Except Error Unit × World :=
  match issue F (Op.createLog log) w with
  | (true, w1) => (.error .unavailable, w1)
  | (false, w1) => (.ok (), { w1 with logs := w1.logs ++ [log] })

/-- `playerRepository.SoftDeletePlayer`: mark the live rows of the player. -/
def SoftDeletePlayer (F : Faults) (playerID : String) (w : World) :
    Except Error Unit × World :=
  match issue F (Op.softDelete playerID) w with
  | (true, w1) => (.error .unavailable, w1)
  | (false, w1) =>
    (.ok (), { w1 with rows := w1.rows.map (fun r =>
      if r.playerID == playerID && !r.deleted then { r with deleted := true } else r) })

end playerRepository

/-! ## `service/service.go` -/

/-- The work handed to the goroutine started by `UpdateScore`. -/
structure WriteBack where
  log : ScoreChangeLog
  score : PlayerScore
  deriving DecidableEq, Repr

namespace LeaderboardService

/-- `LeaderboardService.getPlayerCurrentScore`: cache first, then the live
row, which is copied into the cache. -/
def getPlayerCurrentScore (F : Faults) (playerID : String) (w : World) :
    Except Error Int × World :=
  match RedisCache.GetPlayerScore F playerID w with
  | (.ok score, w1) => (.ok score, w1)
  | (.error _, w1) =>
    match playerRepository.GetPlayerScore F playerID w1 with
    | (.error e, w2) => (.error e, w2)
    | (.ok playerScore, w2) =>
      ((.ok playerScore.score),
        (RedisCache.SetPlayerInfo F playerID playerScore.score
          playerScore.lastUpdateTime w2).2)

/-- Step 2 of `UpdateScore`: `newScore := currentScore + int64(incrScore)`,
set to 0 when negative. -/
def newScoreOf (currentScore incrScore : Int) : Int :=
  let newScore := wrapInt64 (currentScore + wrapInt64 incrScore)
  if newScore < 0 then 0 else newScore

/-- Steps 2 to 5 of `UpdateScore`, once the current score is known. -/
def writeScore (F : Faults) (playerID : String) (currentScore incrScore timestamp : Int)
    (w : World) : Except Error Unit × World × Option WriteBack :=
  let newScore := newScoreOf currentScore incrScore
  match RedisCache.UpdateScore F playerID newScore timestamp w with
  | (.error e, w1) => (.error (.wrapped "更新Redis分数失败" e), w1, none)
  | (.ok _, w1) =>
    match RedisCache.SetPlayerInfo F playerID newScore timestamp w1 with
    | (.error e, w2) => (.error (.wrapped "更新玩家信息缓存失败" e), w2, none)
    | (.ok _, w2) =>
      (.ok (), w2, some
        { log := ⟨playerID, incrScore, timestamp, currentScore, newScore⟩,
          score := ⟨playerID, newScore, timestamp, false⟩ })

/-- `LeaderboardService.UpdateScore`.  The third component is the task of
the goroutine it starts, when it starts one. -/
def UpdateScore (F : Faults) (playerID : String) (incrScore timestamp : Int) (w : World) :
    Except Error Unit × World × Option WriteBack :=
  match getPlayerCurrentScore F playerID w with
  | (.ok currentScore, w1) => writeScore F playerID currentScore incrScore timestamp w1
  | (.error err, w1) =>
    if err = Error.recordNotFound then
      match playerRepository.GetDeletedPlayerScore F playerID w1 with
      | (.ok deletedScore, w2) => writeScore F playerID deletedScore.score incrScore timestamp w2
      | (.error _, w2) => writeScore F playerID 0 incrScore timestamp w2
    else (.error (.wrapped "获取当前分数失败" err), w1, none)

/-- The body of the goroutine: log the change, then store the score. -/
def runWriteBack (F : Faults) (task : WriteBack) (w : World) : World :=
  (playerRepository.UpdatePlayerScore F task.score
    (playerRepository.CreateScoreLog F task.log w).2).2

/-- `LeaderboardService.GetPlayerRank`. -/
def GetPlayerRank (F : Faults) (playerID : String) (w : World) :
    Except Error RankInfo × World :=
  match RedisCache.GetRank F playerID w with
  | (.error e, w1) => (.error (.wrapped "获取排名失败" e), w1)
  | (.ok rank, w1) =>
    match RedisCache.GetPlayerScore F playerID w1 with
    | (.error e, w2) => (.error (.wrapped "获取分数失败" e), w2)
    | (.ok score, w2) => (.ok ⟨playerID, score, wrapInt64 (rank + 1)⟩, w2)

/-- The result loop of `GetTopN` and `GetPlayerRankRange`: one `RankInfo`
per member whose score can be read, `rankOf i` being the rank given to the
member at index `i`. -/
def assemble (F : Faults) (rankOf : Nat → Int) :
    Nat → List String → World → List RankInfo × World
  | _, [], w => ([], w)
  | i, pid :: rest, w =>
    match RedisCache.GetPlayerScore F pid w with
    | (.error _, w1) => assemble F rankOf (i + 1) rest w1
    | (.ok score, w1) =>
      let r := assemble F rankOf (i + 1) rest w1
      (⟨pid, score, rankOf i⟩ :: r.1, r.2)

/-- `LeaderboardService.GetTopN`. -/
def GetTopN (F : Faults) (n : Int) (w : World) : Except Error (List RankInfo) × World :=
  if n ≤ 0 then (.ok [], w)
  else
    match RedisCache.GetTopN F n w with
    | (.error e, w1) => (.error (.wrapped "获取前N名失败" e), w1)
    | (.ok playerIDs, w1) =>
      let r := assemble F (fun i => wrapInt64 ((i : Int) + 1)) 0 playerIDs w1
      (.ok r.1, r.2)

/-- `LeaderboardService.GetPlayerRankRange`. -/
def GetPlayerRankRange (F : Faults) (playerID : String) (rangeNum : Int) (w : World) :
    Except Error (List RankInfo) × World :=
  match RedisCache.GetRank F playerID w with
  | (.error e, w1) => (.error (.wrapped "获取玩家排名失败" e), w1)
  | (.ok rank, w1) =>
    let half := Int.tdiv rangeNum 2
    let start := wrapInt64 (rank - half)
    let start := if start < 0 then 0 else start
    let stop := wrapInt64 (rank + half)
    match RedisCache.GetRangePlayers F start stop w1 with
    | (.error e, w2) => (.error (.wrapped "获取范围玩家失败" e), w2)
    | (.ok playerIDs, w2) =>
      let r := assemble F (fun i => wrapInt64 (wrapInt64 (start + (i : Int)) + 1)) 0
        playerIDs w2
      (.ok r.1, r.2)

/-- `LeaderboardService.SoftDeletePlayer`. -/
def SoftDeletePlayer (F : Faults) (playerID : String) (w : World) :
    Except Error Unit × World :=
  match RedisCache.RemovePlayer F playerID w with
  | (.error e, w1) => (.error (.wrapped "Redis移除玩家失败" e), w1)
  | (.ok _, w1) => playerRepository.SoftDeletePlayer F playerID w1

end LeaderboardService

/-! ## Runs of the service -/

/-- One event of a run: a call of `UpdateScore`, or the goroutine of an
earlier call (the `i`-th still waiting) doing its work. -/
inductive Step where
  | update (playerID : String) (incrScore timestamp : Int)
  | writeBack (i : Nat)
  deriving DecidableEq, Repr

/-- The timestamp of a call lies in `[0, 10^9)`. -/
def Step.timestampInRange : Step → Prop
  | .update _ _ ts => 0 ≤ ts ∧ ts < 1000000000
  | .writeBack _ => True

instance (st : Step) : Decidable st.timestampInRange := by
  cases st <;> unfold Step.timestampInRange <;> exact inferInstance

/-- The stores together with the goroutines that have not run yet. -/
structure System where
  world : World
  pending : List WriteBack
  deriving DecidableEq, Repr

/-- Empty stores, no goroutine waiting. -/
def System.init : System := ⟨World.empty, []⟩

/-- One event.  A call of `UpdateScore` that returns an error ends the run:
only runs of successful calls are considered. -/
def System.step (F : Faults) (s : System) : Step → Option System
  | .update p d ts =>
    match LeaderboardService.UpdateScore F p d ts s.world with
    | (.ok _, w, task) => some ⟨w, s.pending ++ task.toList⟩
    | (.error _, _, _) => none
  | .writeBack i =>
    match s.pending[i]? with
    | some task => some ⟨LeaderboardService.runWriteBack F task s.world, s.pending.eraseIdx i⟩
    | none => some s

/-- A sequence of events, from left to right. -/
def System.run (F : Faults) : List Step → System → Option System
  | [], s => some s
  | st :: rest, s => (s.step F st).bind (System.run F rest)

/-! ## Boards and runs used as examples -/

/-- The board on which player `p` holds the score `2^63 - 1`, built by one
`UpdateScore` on empty stores. -/
def maxScoreWorld : World :=
  (LeaderboardService.UpdateScore noFaults "p" 9223372036854775807 0 World.empty).2.1

/-- The stores after player `A` got 150, the goroutine of that update ran,
and `A` was removed: ScoreFacts has no entry, the ledger a soft-deleted row
with score 150. -/
def returningWorld : World :=
  (LeaderboardService.SoftDeletePlayer noFaults "A"
    (LeaderboardService.runWriteBack noFaults
      ⟨⟨"A", 150, 5, 0, 150⟩, ⟨"A", 150, 5, false⟩⟩
      (LeaderboardService.UpdateScore noFaults "A" 150 5 World.empty).2.1)).2

/-- The stores after player `p` got `2^63 - 1`, the goroutine of that update
ran, and `p` was removed: ScoreFacts has no entry, the ledger a soft-deleted
row with score `2^63 - 1`. -/
def maxReturningWorld : World :=
  (LeaderboardService.SoftDeletePlayer noFaults "p"
    (LeaderboardService.runWriteBack noFaults
      ⟨⟨"p", 9223372036854775807, 0, 0, 9223372036854775807⟩,
       ⟨"p", 9223372036854775807, 0, false⟩⟩
      maxScoreWorld)).2

/-- Stores in which only the ledger knows player `p`: a live row with
score 150. -/
def ledgerOnlyWorld : World := ⟨[], [], [⟨"p", 150, 1, false⟩], [], []⟩

/-- Stores in which only the ledger knows player `p`: a soft-deleted row
with score 150. -/
def tombstoneWorld : World := ⟨[], [], [⟨"p", 150, 1, true⟩], [], []⟩

/-- Thirteen calls: players `p00` to `p12` get 1300 down to 100, all at
time 5. -/
def thirteenSteps : List Step :=
  [Step.update "p00" 1300 5,
   Step.update "p01" 1200 5,
   Step.update "p02" 1100 5,
   Step.update "p03" 1000 5,
   Step.update "p04" 900 5,
   Step.update "p05" 800 5,
   Step.update "p06" 700 5,
   Step.update "p07" 600 5,
   Step.update "p08" 500 5,
   Step.update "p09" 400 5,
   Step.update "p10" 300 5,
   Step.update "p11" 200 5,
   Step.update "p12" 100 5]

/-- The board of 13 players built by `thirteenSteps` on empty stores. -/
def thirteenBoard : World :=
  ((System.run noFaults thirteenSteps System.init).getD System.init).world

/-- Two calls: player `a` gets 9007199 at time 999999999, then player `b`
gets 9007200 at time 0. -/
def roundedSteps : List Step :=
  [Step.update "a" 9007199 999999999, Step.update "b" 9007200 0]

/-- The scenario of the spec: `A` gets 150, the goroutine of that call
runs, then `B` gets 200. -/
def abSteps : List Step :=
  [Step.update "A" 150 5, Step.writeBack 0, Step.update "B" 200 6]

/-- The system at the end of `abSteps`. -/
def abSystem : System := (System.run noFaults abSteps System.init).getD System.init

/-! ## Consistency of the board -/

/-- The board is consistent: keys ascend, and every member's key is the sort
key of its ScoreFacts entry, whose timestamp lies in `[0, 10^9)`. -/
def boardOk (w : World) : Prop :=
  w.zset.Pairwise (fun a b => a.1 ≤ b.1) ∧
  ∀ e ∈ w.zset, ∃ s t : Int, w.info.find? (fun x => x.1 == e.2) = some (e.2, s, t) ∧
    e.1 = sortKey s t ∧ 0 ≤ s ∧ 0 ≤ t ∧ t < 1000000000

/-! ## Machine-integer lemmas -/

theorem wrapInt64_of_isInt64 {x : Int} (h : isInt64 x) : wrapInt64 x = x := by
  unfold isInt64 at h
  unfold wrapInt64
  omega

theorem float64OfInt64_exact {x : Int} (h1 : -9007199254740992 < x)
    (h2 : x < 9007199254740992) : float64OfInt64 x = x := by
  unfold float64OfInt64
  have h : x.natAbs < 9007199254740992 := by omega
  simp [h]

/-- Without overflow the `int64` key is `-(score * 10^9) - timestamp`. -/
theorem redisScore_exact {s t : Int} (h : isInt64 (-(s * 1000000000) - t)) :
    redisScore s t = -(s * 1000000000) - t := by
  unfold isInt64 at h
  unfold redisScore timeScale wrapInt64
  omega

/-! ## The sort key (C1, C2, C3) -/

/-- C1, evaluated on the code: with the same score 100, the key of the
earlier timestamp 1 is greater than the key of the later timestamp 2, both as
`int64` and as `float64`, and on a board built from these two updates the
later player is ranked first. -/
theorem C1_later_timestamp_sorts_first :
    redisScore 100 1 = -100000000001 ∧ redisScore 100 2 = -100000000002 ∧
    sortKey 100 2 < sortKey 100 1 ∧ ¬ sortKey 100 1 < sortKey 100 2 ∧
    (LeaderboardService.GetTopN noFaults 2
      (LeaderboardService.UpdateScore noFaults "late" 100 2
        (LeaderboardService.UpdateScore noFaults "early" 100 1 World.empty).2.1).2.1).1
      = .ok [⟨"late", 100, 1⟩, ⟨"early", 100, 2⟩] := by
  decide

/-- C2 fails as stated: `9223372036 * 10^9` fits `int64`, yet subtracting the
timestamp 900000000 wraps around and the key of the higher score is the
greater one. -/
theorem C2_counterexample :
    (0 : Int) ≤ 0 ∧ (0 : Int) < 9223372036 ∧ isInt64 (9223372036 * timeScale) ∧
    isInt64 (0 * timeScale) ∧
    (0 : Int) ≤ 900000000 ∧ (900000000 : Int) < 1000000000 ∧
    redisScore 9223372036 900000000 = 9223372036809551616 ∧ redisScore 0 0 = 0 ∧
    ¬ redisScore 9223372036 900000000 < redisScore 0 0 := by
  decide

/-- C2, amended: for scores `s1 > s2 ≥ 0` and timestamps in `[0, 10^9)`, when
`s1 * 10^9 + t` does not exceed `2^63` (the whole expression
`-score*10^9 - timestamp` stays in `int64`), the `int64` sort key of the
higher score is strictly smaller. -/
theorem C2_score_dominance (s1 s2 t t' : Int) (hs2 : 0 ≤ s2) (hs : s2 < s1)
    (ht : 0 ≤ t ∧ t < 1000000000) (ht' : 0 ≤ t' ∧ t' < 1000000000)
    (hfit : s1 * timeScale + t ≤ 9223372036854775808) :
    redisScore s1 t < redisScore s2 t' := by
  unfold timeScale at hfit
  have h1 : isInt64 (-(s1 * 1000000000) - t) := by unfold isInt64; omega
  have h2 : isInt64 (-(s2 * 1000000000) - t') := by unfold isInt64; omega
  rw [redisScore_exact h1, redisScore_exact h2]
  omega

theorem C2_score_dominance_witness :
    redisScore 9223372036 854775808 < redisScore 9223372035 999999999 :=
  C2_score_dominance 9223372036 9223372035 854775808 999999999 (by decide) (by decide)
    (by decide) (by decide) (by decide)

/-- C3, evaluated on the code: the scale `10^9` is below the timestamp
1700000000 that `time.Now().Unix()` yields, and the key of score 1 at time
1700000000 is not below the key of score 0 at time 2700000001; on the board
built from these two updates the player with score 0 is ranked first. -/
theorem C3_scale_below_unix_time :
    timeScale < 1700000000 ∧
    redisScore 1 1700000000 = -2700000000 ∧ redisScore 0 2700000001 = -2700000001 ∧
    ¬ sortKey 1 1700000000 < sortKey 0 2700000001 ∧
    (LeaderboardService.GetTopN noFaults 2
      (LeaderboardService.UpdateScore noFaults "zero" 0 2700000001
        (LeaderboardService.UpdateScore noFaults "one" 1 1700000000 World.empty).2.1).2.1).1
      = .ok [⟨"zero", 0, 1⟩, ⟨"one", 1, 2⟩] := by
  decide

/-! ## Store requests in closed form -/

theorem RedisCache_UpdateScore_eq (F : Faults) (p : String) (s t : Int) (w : World) :
    RedisCache.UpdateScore F p s t w =
      if F w.trace.length then
        (.error .unavailable, { w with trace := w.trace ++ [Op.zadd p (sortKey s t)] })
      else
        (.ok (), { w with trace := w.trace ++ [Op.zadd p (sortKey s t)],
                          zset := zsetAdd p (sortKey s t) w.zset }) := by
  unfold RedisCache.UpdateScore issue
  cases F w.trace.length <;> simp

theorem RedisCache_SetPlayerInfo_eq (F : Faults) (p : String) (s t : Int) (w : World) :
    RedisCache.SetPlayerInfo F p s t w =
      if F w.trace.length then
        (.error .unavailable, { w with trace := w.trace ++ [Op.hset p s t] })
      else
        (.ok (), { w with trace := w.trace ++ [Op.hset p s t],
                          info := infoSet p s t w.info }) := by
  unfold RedisCache.SetPlayerInfo issue
  cases F w.trace.length <;> simp

theorem RedisCache_GetPlayerScore_eq (F : Faults) (p : String) (w : World) :
    RedisCache.GetPlayerScore F p w =
      (if F w.trace.length then .error .unavailable
        else match infoScore p w.info with
          | none => .error .redisNil
          | some s => .ok s,
       { w with trace := w.trace ++ [Op.hget p] }) := by
  unfold RedisCache.GetPlayerScore issue
  cases F w.trace.length <;> simp
  cases infoScore p w.info <;> simp

theorem RedisCache_RemovePlayer_trace (F : Faults) (p : String) (w : World) :
    (RedisCache.RemovePlayer F p w).2.trace =
      w.trace ++ (if F w.trace.length then [Op.zrem p] else [Op.zrem p, Op.del p]) := by
  unfold RedisCache.RemovePlayer issue
  cases F w.trace.length <;> simp
  cases F (w.trace.length + 1) <;> simp

theorem RedisCache_RemovePlayer_ok (F : Faults) (p : String) (w : World) :
    (RedisCache.RemovePlayer F p w).1 =
      if F w.trace.length then .error .unavailable
      else if F (w.trace.length + 1) then .error .unavailable else .ok () := by
  unfold RedisCache.RemovePlayer issue
  cases F w.trace.length <;> simp
  cases F (w.trace.length + 1) <;> simp

/-! ## remove_player (C7) -/

/-- C7 fails as stated: when the ZREM request fails, `SoftDeletePlayer`
issues no DEL and no soft-delete; when ZREM succeeds and DEL fails, it issues
no soft-delete. -/
theorem C7_counterexample :
    (LeaderboardService.SoftDeletePlayer (fun n => n == 0) "p" World.empty).2.trace
      = [Op.zrem "p"] ∧
    (LeaderboardService.SoftDeletePlayer (fun n => n == 1) "p" World.empty).2.trace
      = [Op.zrem "p", Op.del "p"] := by
  decide

/-- C7, amended: `SoftDeletePlayer` always requests the removal from the
ordered index; it requests the removal from ScoreFacts only when the first
request succeeded, and the soft-delete in the ledger only when both
succeeded; with no failure all three are requested, in that order. -/
theorem C7_requests_issued (F : Faults) (p : String) (w : World) :
    (LeaderboardService.SoftDeletePlayer F p w).2.trace =
      w.trace ++
        (if F w.trace.length then [Op.zrem p]
         else if F (w.trace.length + 1) then [Op.zrem p, Op.del p]
         else [Op.zrem p, Op.del p, Op.softDelete p]) := by
  unfold LeaderboardService.SoftDeletePlayer
  have h1 := RedisCache_RemovePlayer_trace F p w
  have h2 := RedisCache_RemovePlayer_ok F p w
  generalize RedisCache.RemovePlayer F p w = r at h1 h2
  obtain ⟨e, w1⟩ := r
  simp only at h1 h2
  cases hF : F w.trace.length <;> simp [hF] at h1 h2 ⊢
  · cases hG : F (w.trace.length + 1) <;> simp [hG] at h2 ⊢
    · subst h2
      simp [playerRepository.SoftDeletePlayer, issue, h1]
      cases F (w.trace.length + 1 + 1) <;> simp [h1]
    · subst h2; simp [h1]
  · subst h2; simp [h1]

/-! ## Score resolution and the fast-layer writes -/

theorem playerRepository_GetPlayerScore_eq (F : Faults) (p : String) (w : World) :
    playerRepository.GetPlayerScore F p w =
      (if F w.trace.length then .error .unavailable
        else match w.rows.find? (fun r => r.playerID == p && !r.deleted) with
          | none => .error .recordNotFound
          | some r => .ok r,
       { w with trace := w.trace ++ [Op.firstLive p] }) := by
  unfold playerRepository.GetPlayerScore issue
  cases F w.trace.length <;> simp
  cases w.rows.find? (fun r => r.playerID == p && !r.deleted) <;> simp

theorem playerRepository_GetDeletedPlayerScore_eq (F : Faults) (p : String) (w : World) :
    playerRepository.GetDeletedPlayerScore F p w =
      (if F w.trace.length then .error .unavailable
        else match w.rows.find? (fun r => r.playerID == p && r.deleted) with
          | none => .error .recordNotFound
          | some r => .ok r,
       { w with trace := w.trace ++ [Op.firstDeleted p] }) := by
  unfold playerRepository.GetDeletedPlayerScore issue
  cases F w.trace.length <;> simp
  cases w.rows.find? (fun r => r.playerID == p && r.deleted) <;> simp

theorem newScoreOf_nonneg (c d : Int) : 0 ≤ LeaderboardService.newScoreOf c d := by
  unfold LeaderboardService.newScoreOf
  simp only
  split <;> omega

theorem newScoreOf_eq_max (c d : Int) (hd : isInt64 d) :
    LeaderboardService.newScoreOf c d = max 0 (wrapInt64 (c + d)) := by
  unfold LeaderboardService.newScoreOf
  rw [wrapInt64_of_isInt64 hd]
  simp only
  split <;> omega

theorem mem_zsetInsert (e : Int × String) (l : List (Int × String)) (x : Int × String) :
    x ∈ zsetInsert e l ↔ x = e ∨ x ∈ l := by
  induction l with
  | nil => simp [zsetInsert]
  | cons y ys ih =>
    unfold zsetInsert
    split
    · simp
    · simp [ih]; tauto

theorem infoScore_infoSet_self (p : String) (s t : Int) (info : List (String × Int × Int)) :
    infoScore p (infoSet p s t info) = some s := by
  simp [infoScore, infoSet]

/-- A successful run of steps 2 to 5: what it leaves in the stores. -/
theorem writeScore_ok {F : Faults} {p : String} {c d ts : Int} {w : World}
    (h : (LeaderboardService.writeScore F p c d ts w).1 = .ok ()) :
    (LeaderboardService.writeScore F p c d ts w).2.1.zset
        = zsetAdd p (sortKey (LeaderboardService.newScoreOf c d) ts) w.zset ∧
    (LeaderboardService.writeScore F p c d ts w).2.1.info
        = infoSet p (LeaderboardService.newScoreOf c d) ts w.info ∧
    (LeaderboardService.writeScore F p c d ts w).2.1.rows = w.rows ∧
    (LeaderboardService.writeScore F p c d ts w).2.1.logs = w.logs ∧
    (LeaderboardService.writeScore F p c d ts w).2.2
        = some ⟨⟨p, d, ts, c, LeaderboardService.newScoreOf c d⟩,
                ⟨p, LeaderboardService.newScoreOf c d, ts, false⟩⟩ := by
  revert h
  unfold LeaderboardService.writeScore
  simp only [RedisCache_UpdateScore_eq, RedisCache_SetPlayerInfo_eq]
  cases F w.trace.length <;> simp
  cases F (w.trace.length + 1) <;> simp

/-- Every call of `UpdateScore` that reaches step 2 does so with some
current score `c`, from a world that differs from the initial one only by the
requests issued and, possibly, by the ledger score copied into ScoreFacts. -/
theorem UpdateScore_cases (F : Faults) (p : String) (d ts : Int) (w : World) :
    (∃ e, LeaderboardService.UpdateScore F p d ts w
        = (.error e, { w with trace := w.trace ++ [Op.hget p] ++ [Op.firstLive p] },
            none)) ∨
    (∃ c w0, LeaderboardService.UpdateScore F p d ts w
        = LeaderboardService.writeScore F p c d ts w0 ∧
      w0.zset = w.zset ∧ w0.rows = w.rows ∧ w0.logs = w.logs ∧
      (w0.info = w.info ∨ ∃ s t, w0.info = infoSet p s t w.info)) := by
  unfold LeaderboardService.UpdateScore LeaderboardService.getPlayerCurrentScore
  simp only [RedisCache_GetPlayerScore_eq, playerRepository_GetPlayerScore_eq,
    playerRepository_GetDeletedPlayerScore_eq, RedisCache_SetPlayerInfo_eq]
  have hcache : ∀ s : Int, ∃ c w0, LeaderboardService.writeScore F p s d ts
        { w with trace := w.trace ++ [Op.hget p] }
        = LeaderboardService.writeScore F p c d ts w0 ∧
      w0.zset = w.zset ∧ w0.rows = w.rows ∧ w0.logs = w.logs ∧
      (w0.info = w.info ∨ ∃ s t, w0.info = infoSet p s t w.info) :=
    fun s => ⟨s, _, rfl, rfl, rfl, rfl, Or.inl rfl⟩
  cases h0 : F w.trace.length <;> cases hi : infoScore p w.info <;>
    simp only [h0, hi, if_true, if_false, Bool.false_eq_true] <;>
    first
    | exact Or.inr (hcache _)
    | skip
  all_goals
    cases h1 : F (w.trace ++ [Op.hget p]).length <;>
    cases hl : List.find? (fun r => r.playerID == p && !r.deleted) w.rows <;>
    cases h2 : F (w.trace ++ [Op.hget p] ++ [Op.firstLive p]).length <;>
    cases hd : List.find? (fun r => r.playerID == p && r.deleted) w.rows <;>
    simp only [h1, hl, h2, hd, if_true, if_false, Bool.false_eq_true, reduceCtorEq] <;>
    first
    | exact Or.inl ⟨_, rfl⟩
    | exact Or.inr ⟨_, _, rfl, rfl, rfl, rfl, Or.inl rfl⟩
    | exact Or.inr ⟨_, _, rfl, rfl, rfl, rfl, Or.inr ⟨_, _, rfl⟩⟩

/-! ## apply_delta: the floor at zero (C4) -/

/-- C4 fails as stated: with current score `2^63 - 1` and delta 1 the sum
wraps to `-2^63`, so `UpdateScore` writes 0 to ScoreFacts and the key of score
0 to the ordered index, while `max(0, current + delta)` over the integers is
`2^63`. -/
theorem C4_counterexample :
    infoScore "p" maxScoreWorld.info = some 9223372036854775807 ∧
    isInt64 9223372036854775807 ∧ isInt64 1 ∧
    (LeaderboardService.UpdateScore noFaults "p" 1 1 maxScoreWorld).1 = .ok () ∧
    infoScore "p" (LeaderboardService.UpdateScore noFaults "p" 1 1 maxScoreWorld).2.1.info
      = some 0 ∧
    (LeaderboardService.UpdateScore noFaults "p" 1 1 maxScoreWorld).2.1.zset
      = [(sortKey 0 1, "p")] ∧
    max (0 : Int) (9223372036854775807 + 1) = 9223372036854775808 := by
  decide

/-- C4, amended: whenever `UpdateScore` succeeds, with `c` the current score
it resolved (the one it logs as `BeforeScore`), the score it writes to
ScoreFacts and encodes into the ordered index is never negative, and it equals
`max(0, c + delta)` over the integers whenever `c + delta` fits in `int64`. -/
theorem C4_floor_at_zero (F : Faults) (p : String) (d ts : Int) (w : World)
    (hd : isInt64 d) (hok : (LeaderboardService.UpdateScore F p d ts w).1 = .ok ()) :
    ∃ c n : Int,
      (LeaderboardService.UpdateScore F p d ts w).2.2
        = some ⟨⟨p, d, ts, c, n⟩, ⟨p, n, ts, false⟩⟩ ∧
      infoScore p (LeaderboardService.UpdateScore F p d ts w).2.1.info = some n ∧
      (sortKey n ts, p) ∈ (LeaderboardService.UpdateScore F p d ts w).2.1.zset ∧
      0 ≤ n ∧ (isInt64 (c + d) → n = max 0 (c + d)) := by
  rcases UpdateScore_cases F p d ts w with ⟨e, he⟩ | ⟨c, w0, hc, -, -, -, -⟩
  · rw [he] at hok; simp at hok
  · rw [hc] at hok ⊢
    obtain ⟨hz, hi, -, -, ht⟩ := writeScore_ok hok
    refine ⟨c, LeaderboardService.newScoreOf c d, ht, ?_, ?_, newScoreOf_nonneg c d, ?_⟩
    · rw [hi]; exact infoScore_infoSet_self _ _ _ _
    · rw [hz]; unfold zsetAdd; rw [mem_zsetInsert]; exact Or.inl rfl
    · intro hfit
      rw [newScoreOf_eq_max c d hd, wrapInt64_of_isInt64 hfit]

theorem C4_floor_at_zero_witness :
    ∃ c n : Int,
      (LeaderboardService.UpdateScore noFaults "p" (-200) 7
          (LeaderboardService.UpdateScore noFaults "p" 150 5 World.empty).2.1).2.2
        = some ⟨⟨"p", -200, 7, c, n⟩, ⟨"p", n, 7, false⟩⟩ ∧
      infoScore "p" (LeaderboardService.UpdateScore noFaults "p" (-200) 7
          (LeaderboardService.UpdateScore noFaults "p" 150 5 World.empty).2.1).2.1.info
        = some n ∧
      (sortKey n 7, "p") ∈ (LeaderboardService.UpdateScore noFaults "p" (-200) 7
          (LeaderboardService.UpdateScore noFaults "p" 150 5 World.empty).2.1).2.1.zset ∧
      0 ≤ n ∧ (isInt64 (c + -200) → n = max 0 (c + -200)) :=
  C4_floor_at_zero noFaults "p" (-200) 7
    (LeaderboardService.UpdateScore noFaults "p" 150 5 World.empty).2.1
    (by decide) (by decide)

/-! ## apply_delta: the base score (C5) -/

/-- The base score in `int64` arithmetic: with no failing request, no
ScoreFacts entry and no live row, `UpdateScore` writes the floor at zero of
the wrapped sum of the soft-deleted row's score and the delta, or of the delta
alone when there is no soft-deleted row. -/
theorem UpdateScore_base_wrapped (p : String) (d ts : Int) (w : World) (hd : isInt64 d)
    (hinfo : infoScore p w.info = none)
    (hlive : w.rows.find? (fun r => r.playerID == p && !r.deleted) = none) :
    (∀ row, w.rows.find? (fun r => r.playerID == p && r.deleted) = some row →
      (LeaderboardService.UpdateScore noFaults p d ts w).1 = .ok () ∧
      infoScore p (LeaderboardService.UpdateScore noFaults p d ts w).2.1.info
        = some (max 0 (wrapInt64 (row.score + d))) ∧
      (sortKey (max 0 (wrapInt64 (row.score + d))) ts, p)
        ∈ (LeaderboardService.UpdateScore noFaults p d ts w).2.1.zset) ∧
    (w.rows.find? (fun r => r.playerID == p && r.deleted) = none →
      (LeaderboardService.UpdateScore noFaults p d ts w).1 = .ok () ∧
      infoScore p (LeaderboardService.UpdateScore noFaults p d ts w).2.1.info
        = some (max 0 d) ∧
      (sortKey (max 0 d) ts, p)
        ∈ (LeaderboardService.UpdateScore noFaults p d ts w).2.1.zset) := by
  have key : ∀ c : Int,
      LeaderboardService.UpdateScore noFaults p d ts w
        = LeaderboardService.writeScore noFaults p c d ts
            { w with trace := w.trace ++ [Op.hget p] ++ [Op.firstLive p]
                        ++ [Op.firstDeleted p] } →
      (LeaderboardService.UpdateScore noFaults p d ts w).1 = .ok () ∧
      infoScore p (LeaderboardService.UpdateScore noFaults p d ts w).2.1.info
        = some (max 0 (wrapInt64 (c + d))) ∧
      (sortKey (max 0 (wrapInt64 (c + d))) ts, p)
        ∈ (LeaderboardService.UpdateScore noFaults p d ts w).2.1.zset := by
    intro c hc
    have hok : (LeaderboardService.writeScore noFaults p c d ts
        { w with trace := w.trace ++ [Op.hget p] ++ [Op.firstLive p]
                    ++ [Op.firstDeleted p] }).1 = .ok () := by
      simp [LeaderboardService.writeScore, RedisCache_UpdateScore_eq,
        RedisCache_SetPlayerInfo_eq, noFaults]
    obtain ⟨hz, hi, -, -, -⟩ := writeScore_ok hok
    rw [hc, ← newScoreOf_eq_max c d hd]
    refine ⟨hok, ?_, ?_⟩
    · rw [hi]; exact infoScore_infoSet_self _ _ _ _
    · rw [hz]; unfold zsetAdd; rw [mem_zsetInsert]; exact Or.inl rfl
  constructor
  · intro row hrow
    apply key
    simp [LeaderboardService.UpdateScore, LeaderboardService.getPlayerCurrentScore,
      RedisCache_GetPlayerScore_eq, playerRepository_GetPlayerScore_eq,
      playerRepository_GetDeletedPlayerScore_eq, noFaults, hinfo, hlive, hrow]
  · intro hnone
    have h0 := key 0
    rw [Int.zero_add, wrapInt64_of_isInt64 hd] at h0
    apply h0
    simp [LeaderboardService.UpdateScore, LeaderboardService.getPlayerCurrentScore,
      RedisCache_GetPlayerScore_eq, playerRepository_GetPlayerScore_eq,
      playerRepository_GetDeletedPlayerScore_eq, noFaults, hinfo, hlive, hnone]

/-- C5 fails as stated: after `p` got `2^63 - 1`, the goroutine ran and `p`
was removed, ScoreFacts has no entry and the ledger only a soft-deleted row
with `h = 2^63 - 1`; `UpdateScore(p, 1)` then writes 0 to ScoreFacts and the
key of score 0 to the ordered index, while `max(0, h + d)` is `2^63`. -/
theorem C5_counterexample :
    infoScore "p" maxReturningWorld.info = none ∧
    maxReturningWorld.rows.find? (fun r => r.playerID == "p" && !r.deleted) = none ∧
    maxReturningWorld.rows.find? (fun r => r.playerID == "p" && r.deleted)
      = some ⟨"p", 9223372036854775807, 0, true⟩ ∧
    isInt64 1 ∧
    (LeaderboardService.UpdateScore noFaults "p" 1 1 maxReturningWorld).1 = .ok () ∧
    infoScore "p" (LeaderboardService.UpdateScore noFaults "p" 1 1 maxReturningWorld).2.1.info
      = some 0 ∧
    (LeaderboardService.UpdateScore noFaults "p" 1 1 maxReturningWorld).2.1.zset
      = [(sortKey 0 1, "p")] ∧
    max (0 : Int) (9223372036854775807 + 1) = 9223372036854775808 := by
  decide

/-- C5, amended: when no request fails, ScoreFacts has no entry for `p` and
the ledger has no live row for `p`, then (1) if the ledger has a soft-deleted
row with score `h` and `h + d` fits in `int64`, `UpdateScore` succeeds and
writes `max(0, h + d)` to ScoreFacts and its key to the ordered index; (2) if
the ledger has no soft-deleted row either, it writes `max(0, d)`. -/
theorem C5_base_score (p : String) (d ts : Int) (w : World) (hd : isInt64 d)
    (hinfo : infoScore p w.info = none)
    (hlive : w.rows.find? (fun r => r.playerID == p && !r.deleted) = none) :
    (∀ row, w.rows.find? (fun r => r.playerID == p && r.deleted) = some row →
      isInt64 (row.score + d) →
      (LeaderboardService.UpdateScore noFaults p d ts w).1 = .ok () ∧
      infoScore p (LeaderboardService.UpdateScore noFaults p d ts w).2.1.info
        = some (max 0 (row.score + d)) ∧
      (sortKey (max 0 (row.score + d)) ts, p)
        ∈ (LeaderboardService.UpdateScore noFaults p d ts w).2.1.zset) ∧
    (w.rows.find? (fun r => r.playerID == p && r.deleted) = none →
      (LeaderboardService.UpdateScore noFaults p d ts w).1 = .ok () ∧
      infoScore p (LeaderboardService.UpdateScore noFaults p d ts w).2.1.info
        = some (max 0 d) ∧
      (sortKey (max 0 d) ts, p)
        ∈ (LeaderboardService.UpdateScore noFaults p d ts w).2.1.zset) := by
  obtain ⟨h1, h2⟩ := UpdateScore_base_wrapped p d ts w hd hinfo hlive
  refine ⟨?_, h2⟩
  intro row hrow hfit
  have h := h1 row hrow
  rw [wrapInt64_of_isInt64 hfit] at h
  exact h

theorem C5_base_score_witness :
    infoScore "A" returningWorld.info = none ∧
    returningWorld.rows = [⟨"A", 150, 5, true⟩] ∧
    infoScore "A" (LeaderboardService.UpdateScore noFaults "A" 20 9 returningWorld).2.1.info
      = some 170 ∧
    infoScore "B" (LeaderboardService.UpdateScore noFaults "B" 20 9 returningWorld).2.1.info
      = some 20 :=
  ⟨by decide, by decide,
   ((C5_base_score "A" 20 9 returningWorld (by decide) (by decide) (by decide)).1
      ⟨"A", 150, 5, true⟩ (by decide) (by decide)).2.1,
   ((C5_base_score "B" 20 9 returningWorld (by decide) (by decide) (by decide)).2
      (by decide)).2.1⟩

/-! ## apply_delta: store failures while resolving the score (C8) -/

/-- C8 fails as stated: (1) when the ScoreFacts read fails, `UpdateScore`
goes on with the ledger score 150 and writes 170; (2) when the lookup of the
soft-deleted row fails, it goes on with base 0 and writes 20.  Both calls
return success. -/
theorem C8_counterexample :
    (RedisCache.GetPlayerScore (fun n => n == 0) "p" ledgerOnlyWorld).1
      = .error .unavailable ∧
    (LeaderboardService.UpdateScore (fun n => n == 0) "p" 20 7 ledgerOnlyWorld).1 = .ok () ∧
    infoScore "p"
      (LeaderboardService.UpdateScore (fun n => n == 0) "p" 20 7 ledgerOnlyWorld).2.1.info
      = some 170 ∧
    (LeaderboardService.UpdateScore (fun n => n == 2) "p" 20 7 tombstoneWorld).2.1.trace
      = [Op.hget "p", Op.firstLive "p", Op.firstDeleted "p",
         Op.zadd "p" (sortKey 20 7), Op.hset "p" 20 7] ∧
    (LeaderboardService.UpdateScore (fun n => n == 2) "p" 20 7 tombstoneWorld).1 = .ok () ∧
    infoScore "p"
      (LeaderboardService.UpdateScore (fun n => n == 2) "p" 20 7 tombstoneWorld).2.1.info
      = some 20 := by
  decide

/-- C8, amended: a ScoreFacts read that misses or fails sends `UpdateScore`
to the ledger; whenever the lookup of the live row then fails with an error
other than not-found, `UpdateScore` returns an error, issues no further
request, leaves the ordered index and ScoreFacts as they were and starts no
goroutine. -/
theorem C8_live_lookup_failure (F : Faults) (p : String) (d ts : Int) (w : World)
    (hcache : F w.trace.length = true ∨ infoScore p w.info = none)
    (hlive : F (w.trace.length + 1) = true) :
    (LeaderboardService.UpdateScore F p d ts w).1
      = .error (.wrapped "获取当前分数失败" .unavailable) ∧
    (LeaderboardService.UpdateScore F p d ts w).2.1.trace
      = w.trace ++ [Op.hget p, Op.firstLive p] ∧
    (LeaderboardService.UpdateScore F p d ts w).2.1.zset = w.zset ∧
    (LeaderboardService.UpdateScore F p d ts w).2.1.info = w.info ∧
    (LeaderboardService.UpdateScore F p d ts w).2.2 = none := by
  have hres : (RedisCache.GetPlayerScore F p w).1 = .error .unavailable ∨
      (RedisCache.GetPlayerScore F p w).1 = .error .redisNil := by
    rw [RedisCache_GetPlayerScore_eq]
    cases h0 : F w.trace.length
    · rcases hcache with h | h
      · rw [h0] at h; cases h
      · simp [h]
    · simp
  have hw : (RedisCache.GetPlayerScore F p w).2 = { w with trace := w.trace ++ [Op.hget p] } := by
    rw [RedisCache_GetPlayerScore_eq]
  unfold LeaderboardService.UpdateScore LeaderboardService.getPlayerCurrentScore
  generalize RedisCache.GetPlayerScore F p w = r at hres hw
  obtain ⟨e, w1⟩ := r
  simp only at hres hw
  subst hw
  rcases hres with h | h <;> subst h <;>
    simp [playerRepository_GetPlayerScore_eq, hlive]

theorem C8_live_lookup_failure_witness :
    (LeaderboardService.UpdateScore (fun n => n == 1) "p" 20 7 ledgerOnlyWorld).1
      = .error (.wrapped "获取当前分数失败" .unavailable) ∧
    (LeaderboardService.UpdateScore (fun n => n == 1) "p" 20 7 ledgerOnlyWorld).2.1.trace
      = ledgerOnlyWorld.trace ++ [Op.hget "p", Op.firstLive "p"] ∧
    (LeaderboardService.UpdateScore (fun n => n == 1) "p" 20 7 ledgerOnlyWorld).2.1.zset
      = ledgerOnlyWorld.zset ∧
    (LeaderboardService.UpdateScore (fun n => n == 1) "p" 20 7 ledgerOnlyWorld).2.1.info
      = ledgerOnlyWorld.info ∧
    (LeaderboardService.UpdateScore (fun n => n == 1) "p" 20 7 ledgerOnlyWorld).2.2 = none :=
  C8_live_lookup_failure (fun n => n == 1) "p" 20 7 ledgerOnlyWorld
    (Or.inr (by decide)) (by decide)

/-! ## Rank queries: the ordered index -/

theorem zsetRank_getElem {m : String} :
    ∀ {z : List (Int × String)} {i : Nat}, zsetRank m z = some i →
      (z.map Prod.snd)[i]? = some m ∧ i < z.length
  | [], i, h => by simp [zsetRank] at h
  | e :: es, i, h => by
    unfold zsetRank at h
    split at h
    · rename_i he
      cases h
      simpa using he
    · cases hr : zsetRank m es with
      | none => simp [hr] at h
      | some j =>
        simp [hr] at h
        subst h
        have ih := zsetRank_getElem hr
        simpa using ih

theorem zsetRange_eq (z : List (Int × String)) {a b : Int} (ha : 0 ≤ a) (hab : a ≤ b) :
    zsetRange a b z = ((z.map Prod.snd).drop a.toNat).take (b - a + 1).toNat := by
  unfold zsetRange
  have h1 : ¬ a < 0 := by omega
  have h2 : ¬ b < 0 := by omega
  simp only [h1, h2, if_false]
  split
  · rename_i h
    have : (z.map Prod.snd).length ≤ a.toNat := by
      simp only [List.length_map]; omega
    rw [List.drop_eq_nil_of_le this, List.take_nil]
  · rename_i h
    split
    · rename_i h3
      rw [List.take_of_length_le, List.take_of_length_le]
      · simp only [List.length_drop, List.length_map]; omega
      · simp only [List.length_drop, List.length_map]; omega
    · rfl

/-- With no failing request and a score for every listed member, the result
loop returns one entry per member, in order. -/
theorem assemble_noFaults (rankOf : Nat → Int) :
    ∀ (ms : List String) (i : Nat) (w : World),
      (∀ m ∈ ms, ∃ s, infoScore m w.info = some s) →
      (LeaderboardService.assemble noFaults rankOf i ms w).1 =
        (List.enumFrom i ms).map
          (fun jm => ⟨jm.2, (infoScore jm.2 w.info).getD 0, rankOf jm.1⟩)
  | [], i, w, _ => by simp [LeaderboardService.assemble]
  | m :: ms, i, w, h => by
    obtain ⟨s, hs⟩ := h m (List.mem_cons_self _ _)
    have ih := assemble_noFaults rankOf ms (i + 1)
      { w with trace := w.trace ++ [Op.hget m] }
      (fun m' hm' => h m' (List.mem_cons_of_mem _ hm'))
    unfold LeaderboardService.assemble
    simp only [RedisCache_GetPlayerScore_eq, noFaults, hs]
    simp only [noFaults] at ih
    simp [ih, hs, List.enumFrom_cons]

theorem map_range'_congr (f g : Nat → Int) :
    ∀ (n a b : Nat), (∀ i, i < n → f (a + i) = g (b + i)) →
      (List.range' a n).map f = (List.range' b n).map g
  | 0, _, _, _ => by simp
  | n + 1, a, b, h => by
    have h0 := h 0 (Nat.succ_pos n)
    have ih := map_range'_congr f g n (a + 1) (b + 1) (fun i hi => by
      have := h (i + 1) (Nat.succ_lt_succ hi)
      simpa [Nat.add_assoc, Nat.add_comm 1 i] using this)
    simp only [List.range'_succ, List.map_cons, Nat.add_zero] at h0 ⊢
    rw [h0, ih]

theorem RedisCache_GetRank_noFaults (p : String) (w : World) :
    RedisCache.GetRank noFaults p w =
      (match zsetRank p w.zset with
        | none => .error .redisNil
        | some r => .ok (r : Int),
       { w with trace := w.trace ++ [Op.zrank p] }) := by
  unfold RedisCache.GetRank issue noFaults
  simp only
  cases zsetRank p w.zset <;> rfl

theorem RedisCache_GetRangePlayers_noFaults (a b : Int) (w : World) :
    RedisCache.GetRangePlayers noFaults a b w =
      (.ok (zsetRange a b w.zset), { w with trace := w.trace ++ [Op.zrange a b] }) := by
  unfold RedisCache.GetRangePlayers issue noFaults
  rfl

/-- The window query in closed form: with `half = rangeNum / 2` and
`lo = rank0 - half` cut off at 0, the result lists the members at positions
`lo` to `rank0 + half` that exist. -/
theorem GetPlayerRankRange_noFaults (w : World) (p : String) (rangeNum : Int) (rank0 : Nat)
    (h0 : 0 ≤ rangeNum) (hfit : isInt64 rangeNum)
    (hsize : w.zset.length < 4611686018427387904) (hall : allHaveScore w)
    (hrank : zsetRank p w.zset = some rank0) :
    (LeaderboardService.GetPlayerRankRange noFaults p rangeNum w).1 =
      .ok ((List.enumFrom 0
            (((members w).drop (rank0 - (rangeNum / 2).toNat)).take
              (rank0 + (rangeNum / 2).toNat + 1 - (rank0 - (rangeNum / 2).toNat)))).map
          (fun jm => ⟨jm.2, (infoScore jm.2 w.info).getD 0,
            wrapInt64 (wrapInt64
              (((rank0 - (rangeNum / 2).toNat : Nat) : Int) + (jm.1 : Int)) + 1)⟩)) := by
  have hlt := (zsetRank_getElem hrank).2
  unfold isInt64 at hfit
  have hh : Int.tdiv rangeNum 2 = rangeNum / 2 := Int.tdiv_eq_ediv h0 (by decide)
  have hstart : (if wrapInt64 ((rank0 : Int) - rangeNum / 2) < 0 then 0
      else wrapInt64 ((rank0 : Int) - rangeNum / 2))
      = ((rank0 - (rangeNum / 2).toNat : Nat) : Int) := by
    unfold wrapInt64
    split <;> omega
  have hstop : wrapInt64 ((rank0 : Int) + rangeNum / 2)
      = ((rank0 + (rangeNum / 2).toNat : Nat) : Int) := by
    unfold wrapInt64
    omega
  unfold LeaderboardService.GetPlayerRankRange
  simp only [RedisCache_GetRank_noFaults, hrank, hh, hstart, hstop,
    RedisCache_GetRangePlayers_noFaults]
  rw [zsetRange_eq _ (Int.ofNat_nonneg _) (by omega)]
  have hcnt : (((rank0 + (rangeNum / 2).toNat : Nat) : Int)
      - ((rank0 - (rangeNum / 2).toNat : Nat) : Int) + 1).toNat
      = rank0 + (rangeNum / 2).toNat + 1 - (rank0 - (rangeNum / 2).toNat) := by omega
  rw [hcnt, Int.toNat_ofNat]
  rw [assemble_noFaults]
  · rfl
  · intro m hm
    exact Option.isSome_iff_exists.mp
      (hall m (List.mem_of_mem_drop (List.mem_of_mem_take hm)))

theorem wrapInt64_rank (a i : Nat) (h : a + i < 4611686018427387904) :
    wrapInt64 (wrapInt64 ((a : Int) + (i : Int)) + 1) = ((a + i + 1 : Nat) : Int) := by
  unfold wrapInt64
  omega

theorem members_length (w : World) : (members w).length = w.zset.length := by
  simp [members]

/-- The window query read off the board: which members it returns, with
which ranks and scores. -/
theorem rankRange_window (w : World) (p : String) (rangeNum : Int) (rank0 half lo hi : Nat)
    (h0 : 0 ≤ rangeNum) (hfit : isInt64 rangeNum)
    (hsize : w.zset.length < 4611686018427387904) (hall : allHaveScore w)
    (hrank : zsetRank p w.zset = some rank0)
    (hhalf : (half : Int) = rangeNum / 2) (hlo : lo = rank0 - half)
    (hhi : hi = min (rank0 + half) (w.zset.length - 1)) :
    ∃ l, (LeaderboardService.GetPlayerRankRange noFaults p rangeNum w).1 = .ok l ∧
      l.map (fun r => r.playerID) = ((members w).drop lo).take (hi + 1 - lo) ∧
      l.map (fun r => r.rank) = (List.range' (lo + 1) (hi + 1 - lo)).map Int.ofNat ∧
      (∀ r ∈ l, infoScore r.playerID w.info = some r.score) ∧
      l.length = hi + 1 - lo ∧
      ∃ s, infoScore p w.info = some s ∧ (⟨p, s, (rank0 : Int) + 1⟩ : RankInfo) ∈ l := by
  obtain ⟨hget, hlt⟩ := zsetRank_getElem hrank
  have hhalf' : (rangeNum / 2).toNat = half := by omega
  have hclosed := GetPlayerRankRange_noFaults w p rangeNum rank0 h0 hfit hsize hall hrank
  rw [hhalf', ← hlo] at hclosed
  have htake : ((members w).drop lo).take (rank0 + half + 1 - lo)
      = ((members w).drop lo).take (hi + 1 - lo) := by
    by_cases hc : rank0 + half ≤ w.zset.length - 1
    · have : hi = rank0 + half := by omega
      rw [this]
    · rw [List.take_of_length_le, List.take_of_length_le]
      · simp only [List.length_drop, members_length]; omega
      · simp only [List.length_drop, members_length]; omega
  rw [htake] at hclosed
  have hlen : (((members w).drop lo).take (hi + 1 - lo)).length = hi + 1 - lo := by
    simp only [List.length_take, List.length_drop, members_length]; omega
  refine ⟨_, hclosed, ?_, ?_, ?_, ?_, ?_⟩
  · rw [List.map_map]
    exact List.enumFrom_map_snd 0 _
  · rw [List.map_map]
    have : (fun r : RankInfo => r.rank) ∘
        (fun jm : Nat × String => (⟨jm.2, (infoScore jm.2 w.info).getD 0,
          wrapInt64 (wrapInt64 ((lo : Int) + (jm.1 : Int)) + 1)⟩ : RankInfo))
        = (fun i : Nat => wrapInt64 (wrapInt64 ((lo : Int) + (i : Int)) + 1)) ∘ Prod.fst := rfl
    rw [this, ← List.map_map, List.enumFrom_map_fst, hlen]
    apply map_range'_congr
    intro i hi'
    show wrapInt64 (wrapInt64 ((lo : Int) + ((0 + i : Nat) : Int)) + 1)
      = ((lo + 1 + i : Nat) : Int)
    rw [wrapInt64_rank lo (0 + i) (by omega)]
    congr 1
    omega
  · intro r hr
    rw [List.mem_map] at hr
    obtain ⟨jm, hjm, rfl⟩ := hr
    have hm : jm.2 ∈ ((members w).drop lo).take (hi + 1 - lo) := by
      have := List.mem_map_of_mem Prod.snd hjm
      rwa [List.enumFrom_map_snd] at this
    obtain ⟨s, hs⟩ := Option.isSome_iff_exists.mp
      (hall jm.2 (List.mem_of_mem_drop (List.mem_of_mem_take hm)))
    simp [hs]
  · rw [List.length_map, List.enumFrom_length, hlen]
  · have hp : p ∈ members w := List.getElem?_mem hget
    obtain ⟨s, hs⟩ := Option.isSome_iff_exists.mp (hall p hp)
    refine ⟨s, hs, ?_⟩
    rw [List.mem_map]
    refine ⟨(rank0 - lo, p), ?_, ?_⟩
    · rw [List.mk_mem_enumFrom_iff_le_and_getElem?_sub]
      refine ⟨Nat.zero_le _, ?_⟩
      rw [Nat.sub_zero, List.getElem?_take_of_lt (by omega), List.getElem?_drop]
      have : lo + (rank0 - lo) = rank0 := by omega
      rw [this]
      exact hget
    · have hr : wrapInt64 (wrapInt64 ((lo : Int) + ((rank0 - lo : Nat) : Int)) + 1)
          = (rank0 : Int) + 1 := by
        rw [wrapInt64_rank lo (rank0 - lo) (by omega)]
        omega
      simp only [hs, Option.getD_some, hr]

theorem GetPlayerRank_noFaults (w : World) (p : String) (rank0 : Nat) (s : Int)
    (hrank : zsetRank p w.zset = some rank0) (hs : infoScore p w.info = some s) :
    (LeaderboardService.GetPlayerRank noFaults p w).1
      = .ok ⟨p, s, wrapInt64 ((rank0 : Int) + 1)⟩ := by
  unfold LeaderboardService.GetPlayerRank
  simp [RedisCache_GetRank_noFaults, RedisCache_GetPlayerScore_eq, noFaults, hrank, hs]

/-! ## window_around (C6, C10) -/

/-- C6 fails as stated: on a board of 13 members that all have a ScoreFacts
entry, the window of size 5 around the player at 0-based rank 9 has the five
members at 0-based ranks 7 to 11, with ranks 8 to 12; the member at 0-based
rank 12 (rank 13) is not returned. -/
theorem C6_counterexample :
    thirteenBoard.zset.length = 13 ∧ allHaveScore thirteenBoard ∧
    zsetRank "p09" thirteenBoard.zset = some 9 ∧
    (LeaderboardService.GetPlayerRankRange noFaults "p09" 5 thirteenBoard).1
      = .ok [⟨"p07", 600, 8⟩, ⟨"p08", 500, 9⟩, ⟨"p09", 400, 10⟩, ⟨"p10", 300, 11⟩,
             ⟨"p11", 200, 12⟩] ∧
    (members thirteenBoard)[12]? = some "p12" := by
  decide

/-- C6, amended: on every board with at least 12 members (so also with at
least 13), all of which have a ScoreFacts entry, `GetPlayerRankRange(p, 5)`
for a player at 0-based rank 9 returns exactly the five members at 0-based
ranks 7 to 11, with the ranks 8 to 12 and their ScoreFacts scores. -/
theorem C6_window_of_five (w : World) (p : String)
    (hmin : 12 ≤ w.zset.length) (hsize : w.zset.length < 4611686018427387904)
    (hall : allHaveScore w) (hrank : zsetRank p w.zset = some 9) :
    ∃ l, (LeaderboardService.GetPlayerRankRange noFaults p 5 w).1 = .ok l ∧
      l.map (fun r => r.playerID) = ((members w).drop 7).take 5 ∧
      l.map (fun r => r.rank) = [8, 9, 10, 11, 12] ∧
      (∀ r ∈ l, infoScore r.playerID w.info = some r.score) ∧
      l.length = 5 := by
  obtain ⟨l, h1, h2, h3, h4, h5, -⟩ :=
    rankRange_window w p 5 9 2 7 11 (by decide) (by decide) hsize hall hrank
      (by decide) (by decide) (by omega)
  exact ⟨l, h1, h2, h3, h4, h5⟩

theorem C6_window_of_five_witness :
    ∃ l, (LeaderboardService.GetPlayerRankRange noFaults "p09" 5 thirteenBoard).1 = .ok l ∧
      l.map (fun r => r.playerID) = ((members thirteenBoard).drop 7).take 5 ∧
      l.map (fun r => r.rank) = [8, 9, 10, 11, 12] ∧
      (∀ r ∈ l, infoScore r.playerID thirteenBoard.info = some r.score) ∧
      l.length = 5 :=
  C6_window_of_five thirteenBoard "p09" (by decide) (by decide) (by decide) (by decide)

/-- C10: for a window size `ws ≥ 0` with `half = ws / 2`, a player `p` at
0-based rank `rank0` on a board whose members all have a ScoreFacts entry,
and `lo = max(0, rank0 - half)`, `hi = min(rank0 + half, size - 1)`:
`GetPlayerRankRange(p, ws)` returns exactly the members at positions `lo` to
`hi`, in order, the one at position `i` with rank `i + 1` and its ScoreFacts
score; the result has at most `ws + 1` entries and contains the very entry
that `GetPlayerRank(p)` returns, whose rank is `rank0 + 1`. -/
theorem C10_window_bounds (w : World) (p : String) (ws : Int) (rank0 half lo hi : Nat)
    (h0 : 0 ≤ ws) (hfit : isInt64 ws)
    (hsize : w.zset.length < 4611686018427387904) (hall : allHaveScore w)
    (hrank : zsetRank p w.zset = some rank0)
    (hhalf : (half : Int) = ws / 2) (hlo : (lo : Int) = max 0 ((rank0 : Int) - half))
    (hhi : hi = min (rank0 + half) (w.zset.length - 1)) :
    ∃ l, (LeaderboardService.GetPlayerRankRange noFaults p ws w).1 = .ok l ∧
      l.map (fun r => r.playerID) = ((members w).drop lo).take (hi + 1 - lo) ∧
      l.map (fun r => r.rank) = (List.range' (lo + 1) (hi + 1 - lo)).map Int.ofNat ∧
      (∀ r ∈ l, infoScore r.playerID w.info = some r.score) ∧
      l.length = hi + 1 - lo ∧ (l.length : Int) ≤ ws + 1 ∧
      ∃ r ∈ l, (LeaderboardService.GetPlayerRank noFaults p w).1 = .ok r ∧
        r.playerID = p ∧ r.rank = (rank0 : Int) + 1 := by
  have hlo' : lo = rank0 - half := by omega
  obtain ⟨l, h1, h2, h3, h4, h5, s, hs, hmem⟩ :=
    rankRange_window w p ws rank0 half lo hi h0 hfit hsize hall hrank hhalf hlo' hhi
  have hlt := (zsetRank_getElem hrank).2
  refine ⟨l, h1, h2, h3, h4, h5, ?_, ⟨p, s, (rank0 : Int) + 1⟩, hmem, ?_, rfl, rfl⟩
  · rw [h5]; omega
  · rw [GetPlayerRank_noFaults w p rank0 s hrank hs]
    have : wrapInt64 ((rank0 : Int) + 1) = (rank0 : Int) + 1 := by
      apply wrapInt64_of_isInt64
      unfold isInt64
      omega
    rw [this]

theorem C10_window_bounds_witness :
    ∃ l, (LeaderboardService.GetPlayerRankRange noFaults "p11" 6 thirteenBoard).1 = .ok l ∧
      l.map (fun r => r.playerID) = ((members thirteenBoard).drop 8).take (12 + 1 - 8) ∧
      l.map (fun r => r.rank) = (List.range' (8 + 1) (12 + 1 - 8)).map Int.ofNat ∧
      (∀ r ∈ l, infoScore r.playerID thirteenBoard.info = some r.score) ∧
      l.length = 12 + 1 - 8 ∧ (l.length : Int) ≤ 6 + 1 ∧
      ∃ r ∈ l, (LeaderboardService.GetPlayerRank noFaults "p11" thirteenBoard).1 = .ok r ∧
        r.playerID = "p11" ∧ r.rank = ((11 : Nat) : Int) + 1 :=
  C10_window_bounds thirteenBoard "p11" 6 11 3 8 12 (by decide) (by decide) (by decide)
    (by decide) (by decide) (by decide) (by decide) (by decide)

/-! ## top_n (C9) -/

theorem find_infoSet_self (p : String) (s t : Int) (info : List (String × Int × Int)) :
    (infoSet p s t info).find? (fun e => e.1 == p) = some (p, s, t) := by
  simp [infoSet]

theorem find_infoDel_ne {m p : String} (h : m ≠ p) :
    ∀ info : List (String × Int × Int),
      (infoDel p info).find? (fun e => e.1 == m) = info.find? (fun e => e.1 == m)
  | [] => rfl
  | x :: xs => by
    have ih := find_infoDel_ne h xs
    unfold infoDel at ih ⊢
    rw [List.filter_cons]
    by_cases hx : x.1 = p
    · have h1 : (x.1 != p) = false := by simp [hx]
      have h2 : (x.1 == m) = false := by
        rw [beq_eq_false_iff_ne, hx]
        exact fun h' => h h'.symm
      simp only [h1, List.find?_cons, h2, Bool.false_eq_true, if_false]
      exact ih
    · have h1 : (x.1 != p) = true := by simp [hx]
      cases hxm : (x.1 == m)
      · simp only [h1, List.find?_cons, hxm, if_true]
        exact ih
      · simp only [h1, List.find?_cons, hxm, if_true]

theorem find_infoSet_ne {m p : String} (h : m ≠ p) (s t : Int)
    (info : List (String × Int × Int)) :
    (infoSet p s t info).find? (fun e => e.1 == m) = info.find? (fun e => e.1 == m) := by
  unfold infoSet
  have hpm : (p == m) = false := by
    rw [beq_eq_false_iff_ne]
    exact fun h' => h h'.symm
  simp only [List.find?_cons, hpm]
  exact find_infoDel_ne h info

theorem pairwise_zsetInsert (e : Int × String) :
    ∀ l : List (Int × String), l.Pairwise (fun a b => a.1 ≤ b.1) →
      (zsetInsert e l).Pairwise (fun a b => a.1 ≤ b.1)
  | [], _ => by simp [zsetInsert]
  | x :: xs, h => by
    rw [List.pairwise_cons] at h
    unfold zsetInsert
    split
    · rename_i hb
      have hex : e.1 ≤ x.1 := by
        unfold zsetBefore at hb
        simp at hb
        omega
      rw [List.pairwise_cons]
      refine ⟨?_, List.pairwise_cons.mpr h⟩
      intro y hy
      rcases List.mem_cons.mp hy with rfl | hy
      · exact hex
      · exact Int.le_trans hex (h.1 y hy)
    · rename_i hb
      have hxe : x.1 ≤ e.1 := by
        unfold zsetBefore at hb
        simp at hb
        omega
      rw [List.pairwise_cons]
      refine ⟨?_, pairwise_zsetInsert e xs h.2⟩
      intro y hy
      rcases (mem_zsetInsert e xs y).mp hy with rfl | hy
      · exact hxe
      · exact h.1 y hy

theorem pairwise_zsetAdd (m : String) (k : Int) (l : List (Int × String))
    (h : l.Pairwise (fun a b => a.1 ≤ b.1)) :
    (zsetAdd m k l).Pairwise (fun a b => a.1 ≤ b.1) :=
  pairwise_zsetInsert _ _ (List.Pairwise.filter _ h)

theorem boardOk_empty : boardOk World.empty := by
  unfold boardOk World.empty
  simp

theorem boardOk_update (F : Faults) (p : String) (d ts : Int) (w : World)
    (hw : boardOk w) (hts : 0 ≤ ts ∧ ts < 1000000000)
    (hok : (LeaderboardService.UpdateScore F p d ts w).1 = .ok ()) :
    boardOk (LeaderboardService.UpdateScore F p d ts w).2.1 := by
  rcases UpdateScore_cases F p d ts w with ⟨e, he⟩ | ⟨c, w0, hc, hz0, -, -, hi0⟩
  · rw [he] at hok; simp at hok
  · rw [hc] at hok ⊢
    obtain ⟨hz, hi, -, -, -⟩ := writeScore_ok hok
    unfold boardOk
    rw [hz, hi, hz0]
    refine ⟨pairwise_zsetAdd _ _ _ hw.1, ?_⟩
    intro e he
    unfold zsetAdd at he
    rcases (mem_zsetInsert _ _ _).mp he with rfl | he
    · exact ⟨_, _, find_infoSet_self _ _ _ _, rfl, newScoreOf_nonneg c d, hts.1, hts.2⟩
    · unfold zsetRemove at he
      rw [List.mem_filter] at he
      have hne : e.2 ≠ p := by simpa using he.2
      obtain ⟨s, t, hfind, hrest⟩ := hw.2 e he.1
      refine ⟨s, t, ?_, hrest⟩
      rw [find_infoSet_ne hne]
      rcases hi0 with h | ⟨s', t', h⟩
      · rw [h]; exact hfind
      · rw [h, find_infoSet_ne hne]; exact hfind

theorem CreateScoreLog_fast (F : Faults) (log : ScoreChangeLog) (w : World) :
    (playerRepository.CreateScoreLog F log w).2.zset = w.zset ∧
    (playerRepository.CreateScoreLog F log w).2.info = w.info := by
  unfold playerRepository.CreateScoreLog issue
  cases F w.trace.length <;> simp

theorem UpdatePlayerScore_fast (F : Faults) (score : PlayerScore) (w : World) :
    (playerRepository.UpdatePlayerScore F score w).2.zset = w.zset ∧
    (playerRepository.UpdatePlayerScore F score w).2.info = w.info := by
  unfold playerRepository.UpdatePlayerScore issue
  cases F w.trace.length <;> simp only
  · cases w.rows.find? (fun r => r.playerID == score.playerID) <;> simp only
    · cases F (w.trace ++ [Op.firstUnscoped score.playerID]).length <;> simp
    · cases F (w.trace ++ [Op.firstUnscoped score.playerID]).length <;> simp
  · simp

theorem runWriteBack_fast (F : Faults) (task : WriteBack) (w : World) :
    (LeaderboardService.runWriteBack F task w).zset = w.zset ∧
    (LeaderboardService.runWriteBack F task w).info = w.info := by
  unfold LeaderboardService.runWriteBack
  obtain ⟨h1, h2⟩ := UpdatePlayerScore_fast F task.score
    (playerRepository.CreateScoreLog F task.log w).2
  obtain ⟨h3, h4⟩ := CreateScoreLog_fast F task.log w
  exact ⟨h1.trans h3, h2.trans h4⟩

theorem boardOk_step (F : Faults) (s s' : System) (st : Step)
    (hst : st.timestampInRange)
    (hs : boardOk s.world) (h : s.step F st = some s') : boardOk s'.world := by
  cases st with
  | update p d ts =>
    have hts : 0 ≤ ts ∧ ts < 1000000000 := hst
    simp only [System.step] at h
    have hb := boardOk_update F p d ts s.world hs hts
    rcases hr : LeaderboardService.UpdateScore F p d ts s.world with ⟨e, w, task⟩
    rw [hr] at h hb
    cases e with
    | error err => simp at h
    | ok u =>
      simp only [Option.some.injEq] at h
      subst h
      exact hb rfl
  | writeBack i =>
    simp only [System.step] at h
    cases hp : s.pending[i]? with
    | none =>
      simp only [hp, Option.some.injEq] at h
      subst h; exact hs
    | some task =>
      simp only [hp, Option.some.injEq] at h
      subst h
      obtain ⟨hz, hi⟩ := runWriteBack_fast F task s.world
      unfold boardOk at hs ⊢
      simp only [hz, hi]
      exact hs

theorem boardOk_run (F : Faults) :
    ∀ (steps : List Step) (s s' : System),
      (∀ st ∈ steps, st.timestampInRange) →
      boardOk s.world → System.run F steps s = some s' → boardOk s'.world
  | [], s, s', _, hs, h => by
    simp only [System.run, Option.some.injEq] at h
    subst h; exact hs
  | st :: rest, s, s', hst, hs, h => by
    unfold System.run at h
    cases h1 : s.step F st with
    | none => simp [h1] at h
    | some s1 =>
      simp only [h1, Option.some_bind] at h
      have hs1 : boardOk s1.world :=
        boardOk_step F s s1 st (hst st (List.mem_cons_self _ _)) hs h1
      exact boardOk_run F rest s1 s'
        (fun st' hm => hst st' (List.mem_cons_of_mem _ hm)) hs1 h

/-- Below `2^53` the `float64` key is the exact integer key. -/
theorem sortKey_exact {s t : Int} (hs : 0 ≤ s) (hs' : s ≤ 9007198)
    (ht : 0 ≤ t) (ht' : t < 1000000000) : sortKey s t = -(s * 1000000000) - t := by
  unfold sortKey
  rw [redisScore_exact (by unfold isInt64; omega)]
  exact float64OfInt64_exact (by omega) (by omega)

theorem GetTopN_noFaults (w : World) (n : Int) (hn : 0 < n) (hfit : isInt64 n)
    (hall : allHaveScore w) :
    (LeaderboardService.GetTopN noFaults n w).1 =
      .ok ((List.enumFrom 0 ((members w).take n.toNat)).map
        (fun jm => ⟨jm.2, (infoScore jm.2 w.info).getD 0, wrapInt64 ((jm.1 : Int) + 1)⟩)) := by
  have hn' : ¬ n ≤ 0 := by omega
  have hw : wrapInt64 (n - 1) = n - 1 := by
    apply wrapInt64_of_isInt64
    unfold isInt64 at hfit ⊢
    omega
  unfold LeaderboardService.GetTopN RedisCache.GetTopN issue
  simp only [hn', if_false, noFaults, hw]
  rw [zsetRange_eq _ (Int.le_refl 0) (by omega)]
  have hcnt : (n - 1 - 0 + 1).toNat = n.toNat := by omega
  rw [hcnt, assemble_noFaults]
  · rfl
  · intro m hm
    rw [Int.toNat_zero, List.drop_zero] at hm
    exact Option.isSome_iff_exists.mp (hall m (List.mem_of_mem_take hm))

theorem boardOk_allHaveScore {w : World} (h : boardOk w) : allHaveScore w := by
  intro m hm
  unfold members at hm
  rw [List.mem_map] at hm
  obtain ⟨e, he, rfl⟩ := hm
  obtain ⟨s, t, hfind, -⟩ := h.2 e he
  simp [infoScore, hfind]

/-- C9 fails as stated: after `a` got 9007199 at time 999999999 and `b` got
9007200 at time 0 (two successful calls on empty stores), both keys round to
the same `float64`, the tie is broken by member name, and `GetTopN(2)` returns
`a` (9007199) before `b` (9007200): the scores increase. -/
theorem C9_counterexample :
    redisScore 9007199 999999999 = -9007199999999999 ∧
    redisScore 9007200 0 = -9007200000000000 ∧
    sortKey 9007199 999999999 = sortKey 9007200 0 ∧
    (System.run noFaults roundedSteps System.init).map
        (fun s => (LeaderboardService.GetTopN noFaults 2 s.world).1)
      = some (.ok [⟨"a", 9007199, 1⟩, ⟨"b", 9007200, 2⟩]) ∧
    ¬ ([9007199, 9007200] : List Int).Pairwise (fun x y => y ≤ x) := by
  decide

/-- C9, amended: on every board built from empty stores by successful
`UpdateScore` calls with timestamps in `[0, 10^9)` (goroutines running at any
time, requests failing in any pattern that lets the calls succeed), on which
no player's score exceeds 9007198 (so that every key is below `2^53` and exact
as a `float64`): `GetTopN(n)` returns the empty sequence for `n ≤ 0`, and for
`n > 0` exactly the first `min(n, board size)` members in board order, with
ranks 1, 2, ..., their ScoreFacts scores, and scores in non-increasing
order. -/
theorem C9_top_n (F : Faults) (steps : List Step) (sys : System) (n : Int)
    (hsteps : ∀ st ∈ steps, st.timestampInRange)
    (hrun : System.run F steps System.init = some sys)
    (hexact : ∀ m ∈ members sys.world, ∀ s, infoScore m sys.world.info = some s →
      s ≤ 9007198)
    (hfit : isInt64 n) :
    (n ≤ 0 → (LeaderboardService.GetTopN noFaults n sys.world).1 = .ok []) ∧
    (0 < n → ∃ l, (LeaderboardService.GetTopN noFaults n sys.world).1 = .ok l ∧
      l.map (fun r => r.playerID) = (members sys.world).take n.toNat ∧
      l.map (fun r => r.rank)
        = (List.range' 1 (min n.toNat sys.world.zset.length)).map Int.ofNat ∧
      (∀ r ∈ l, infoScore r.playerID sys.world.info = some r.score) ∧
      l.length = min n.toNat sys.world.zset.length ∧
      (l.map (fun r => r.score)).Pairwise (fun x y => y ≤ x)) := by
  constructor
  · intro hn
    unfold LeaderboardService.GetTopN
    rw [if_pos hn]
  intro hn
  have hok : boardOk sys.world :=
    boardOk_run F steps System.init sys hsteps boardOk_empty hrun
  have hall := boardOk_allHaveScore hok
  have hclosed := GetTopN_noFaults sys.world n hn hfit hall
  have hlen : ((members sys.world).take n.toNat).length = min n.toNat sys.world.zset.length := by
    rw [List.length_take, members_length]
  refine ⟨_, hclosed, ?_, ?_, ?_, ?_, ?_⟩
  · rw [List.map_map]
    exact List.enumFrom_map_snd 0 _
  · rw [List.map_map]
    have : (fun r : RankInfo => r.rank) ∘
        (fun jm : Nat × String => (⟨jm.2, (infoScore jm.2 sys.world.info).getD 0,
          wrapInt64 ((jm.1 : Int) + 1)⟩ : RankInfo))
        = (fun i : Nat => wrapInt64 ((i : Int) + 1)) ∘ Prod.fst := rfl
    rw [this, ← List.map_map, List.enumFrom_map_fst, hlen]
    apply map_range'_congr
    intro i hi
    show wrapInt64 (((0 + i : Nat) : Int) + 1) = ((1 + i : Nat) : Int)
    have hb : isInt64 (((0 + i : Nat) : Int) + 1) := by
      unfold isInt64 at hfit ⊢
      omega
    rw [wrapInt64_of_isInt64 hb]
    omega
  · intro r hr
    rw [List.mem_map] at hr
    obtain ⟨jm, hjm, rfl⟩ := hr
    have hm : jm.2 ∈ (members sys.world).take n.toNat := by
      have := List.mem_map_of_mem Prod.snd hjm
      rwa [List.enumFrom_map_snd] at this
    obtain ⟨s, hs⟩ := Option.isSome_iff_exists.mp (hall jm.2 (List.mem_of_mem_take hm))
    simp [hs]
  · rw [List.length_map, List.enumFrom_length, hlen]
  · rw [List.map_map]
    have : (fun r : RankInfo => r.score) ∘
        (fun jm : Nat × String => (⟨jm.2, (infoScore jm.2 sys.world.info).getD 0,
          wrapInt64 ((jm.1 : Int) + 1)⟩ : RankInfo))
        = (fun m : String => (infoScore m sys.world.info).getD 0) ∘ Prod.snd := rfl
    rw [this, ← List.map_map, List.enumFrom_map_snd]
    unfold members
    rw [← List.map_take, List.map_map, List.pairwise_map]
    apply List.Pairwise.sublist (List.take_sublist _ _)
    refine List.Pairwise.imp_of_mem ?_ hok.1
    intro a b ha hb hab
    obtain ⟨sa, ta, hfa, hka, hsa, hta, hta'⟩ := hok.2 a ha
    obtain ⟨sb, tb, hfb, hkb, hsb, htb, htb'⟩ := hok.2 b hb
    have hia : infoScore a.2 sys.world.info = some sa := by simp [infoScore, hfa]
    have hib : infoScore b.2 sys.world.info = some sb := by simp [infoScore, hfb]
    have hea := hexact a.2 (List.mem_map_of_mem Prod.snd ha) sa hia
    have heb := hexact b.2 (List.mem_map_of_mem Prod.snd hb) sb hib
    simp only [Function.comp, hia, hib, Option.getD_some]
    rw [hka, hkb, sortKey_exact hsa hea hta hta', sortKey_exact hsb heb htb htb'] at hab
    omega

theorem C9_top_n_witness :
    ((2 : Int) ≤ 0 → (LeaderboardService.GetTopN noFaults 2 abSystem.world).1 = .ok []) ∧
    ((0 : Int) < 2 → ∃ l, (LeaderboardService.GetTopN noFaults 2 abSystem.world).1 = .ok l ∧
      l.map (fun r => r.playerID) = (members abSystem.world).take (2 : Int).toNat ∧
      l.map (fun r => r.rank)
        = (List.range' 1 (min (2 : Int).toNat abSystem.world.zset.length)).map Int.ofNat ∧
      (∀ r ∈ l, infoScore r.playerID abSystem.world.info = some r.score) ∧
      l.length = min (2 : Int).toNat abSystem.world.zset.length ∧
      (l.map (fun r => r.score)).Pairwise (fun x y => y ≤ x)) :=
  C9_top_n noFaults abSteps abSystem 2 (by decide) (by decide) (by decide) (by decide)

end Leaderboard
